import Mathlib

/-!
Verification of the environment-variable overlay engine in `gcfgenv.go`
(package `gcfgenv`).  The definitions below are a shallow embedding of the
Go source: each definition's doc comment names the source function and
lines it embeds.  Strings are Lean `String`s; the handful of Go `strings`
package operations the source uses are re-implemented over `String.data`
(a `List Char`) so that they are executable and amenable to induction.

The two parsing helpers imported by the source from the external
dependency `gopkg.in/gcfg.v1/types` (`types.ParseBool`, `types.ParseInt`)
are not part of this repository; they are modelled from the spec, as noted
in their doc comments.
-/

deriving instance DecidableEq for Except

namespace Gcfgenv

/-! ## String helpers (Go `strings` package operations used by the source) -/

/-- Go `strings.ToUpper`, as applied to ASCII Go identifiers and tags. -/
def toUpperStr (s : String) : String := ⟨s.data.map Char.toUpper⟩

/-- Go `strings.ToLower` (ASCII), used by the modelled boolean parser. -/
def toLowerStr (s : String) : String := ⟨s.data.map Char.toLower⟩

/-- Single-character map underlying `strings.ReplaceAll(t, "-", "_")`. -/
def dashToUnderscore (c : Char) : Char := if c = '-' then '_' else c

/-- Go `strings.ReplaceAll(env, " ", "")` (gcfgenv.go:444): for the
single-character pattern `" "` this is exactly a filter. -/
def removeSpaces (s : String) : String := ⟨s.data.filter (· != ' ')⟩

/-- Go `strings.HasPrefix`. -/
def startsWithStr (s p : String) : Bool := p.data.isPrefixOf s.data

/-- Go `strings.HasSuffix`. -/
def endsWithStr (s p : String) : Bool := p.data.isSuffixOf s.data

/-- List-level version of Go `strings.Replace(s, pat, "", 1)` for a
non-empty pattern: remove the leftmost occurrence of `pat`, if any. -/
def replaceFirstL : List Char → List Char → List Char
  | [], _ => []
  | c :: rest, pat =>
    if pat.isPrefixOf (c :: rest) then List.drop pat.length (c :: rest)
    else c :: replaceFirstL rest pat

/-- Go `strings.Replace(s, pat, "", 1)` (gcfgenv.go:317 and :378). -/
def replaceFirst (s pat : String) : String := ⟨replaceFirstL s.data pat.data⟩

/-- List-level version of Go `strings.Split(s, ",")`. -/
def splitCommaL : List Char → List (List Char)
  | [] => [[]]
  | c :: rest =>
    if c = ',' then [] :: splitCommaL rest
    else
      match splitCommaL rest with
      | [] => [[c]]
      | p :: ps => (c :: p) :: ps

/-- Go `strings.Split(env, ",")` (gcfgenv.go:496). -/
def splitComma (s : String) : List String := (splitCommaL s.data).map fun l => ⟨l⟩

/-- Leading- and trailing-whitespace trim over character lists, used by the
modelled integer parser (Go `strings.TrimSpace` behaviour on ASCII text). -/
def trimChars (l : List Char) : List Char :=
  ((l.dropWhile Char.isWhitespace).reverse.dropWhile Char.isWhitespace).reverse

/-- Association-list lookup, modelling a Go map read `m[k]`. -/
def lookupKV {β : Type} (k : String) : List (String × β) → Option β
  | [] => none
  | p :: ps => if p.1 = k then some p.2 else lookupKV k ps

/-- Association-list removal, modelling Go `delete(m, k)`.  It removes every
binding of `k`; the association lists the walker builds have unique keys
(they come from Go maps), for which this coincides with `delete`. -/
def eraseKV {β : Type} (k : String) : List (String × β) → List (String × β)
  | [] => []
  | p :: ps => if p.1 = k then eraseKV k ps else p :: eraseKV k ps

/-! ## Types, values and conversion outcomes -/

/-- Scalar field types the repository exercises (`reflect.Kind` dispatch in
`valFromEnvVar`, gcfgenv.go:434-508).  `int signed width` covers the eight
fixed-width integer kinds plus `int`/`uint` (width 64 on this platform);
`unsupported` covers every kind hitting the `default:` branch. -/
inductive STy where
  | str
  | bool
  | int (signed : Bool) (width : Nat)
  | unsupported
deriving DecidableEq, Repr

/-- Field types: a scalar, or a slice of scalars (the shapes gcfg configs
use; deeper nesting is not exercised by the repository). -/
inductive Ty where
  | scalar (t : STy)
  | slice (elem : STy)
deriving DecidableEq, Repr

/-- Models `f.Kind() == reflect.Slice`. -/
def Ty.isSlice : Ty → Bool
  | .slice _ => true
  | .scalar _ => false

/-- Scalar values. -/
inductive Scalar where
  | str (s : String)
  | bool (b : Bool)
  | int (z : Int)
deriving DecidableEq, Repr

/-- Field values: a scalar or a slice of scalars. -/
inductive Val where
  | scalar (v : Scalar)
  | slice (elems : List Scalar)
deriving DecidableEq, Repr

/-- Conversion outcomes of `valFromEnvVar`.  The Go errors additionally
embed the offending raw text in their message; only the outcome kind is
modelled.  `unsupportedType` records the rejected type, as the Go error
message does (gcfgenv.go:507). -/
inductive ConvErr where
  | overflow
  | parseFailure
  | unsupportedType (t : STy)
deriving DecidableEq, Repr

/-- Go zero value of a scalar type.  The zero of an `unsupported` kind is an
opaque placeholder: the walker only ever copies it, never converts it. -/
def zeroScalar : STy → Scalar
  | .str => .str ""
  | .bool => .bool false
  | .int _ _ => .int 0
  | .unsupported => .str ""

/-- Go zero value of a field type (`reflect.Zero`, a nil slice for slices). -/
def zeroVal : Ty → Val
  | .scalar t => .scalar (zeroScalar t)
  | .slice _ => .slice []

/-! ## Value conversion (`valFromEnvVar`, gcfgenv.go:414-509) -/

/-- Modelled from the spec: the boolean grammar of `gopkg.in/gcfg.v1/types`'
`ParseBool`, which is not part of this repository.  Spec §4.1 step 4:
"accepted true-tokens include `1`, `true`/`t` (case-insensitive), `yes`/`y`,
`on`; accepted false-tokens include `0`, `false`/`f`, `no`/`n`, `off`.  Any
other content is a ParseFailure."  No whitespace handling happens here: the
source comments that "gcfg's boolean parser does not strip whitespace on
its own" (gcfgenv.go:443). -/
def parseGcfgBool (s : String) : Except ConvErr Bool :=
  if toLowerStr s ∈ ["1", "true", "t", "yes", "y", "on"] then .ok true
  else if toLowerStr s ∈ ["0", "false", "f", "no", "n", "off"] then .ok false
  else .error .parseFailure

/-- Decimal digit value of a character. -/
def decDigit (c : Char) : Option Nat :=
  if '0' ≤ c ∧ c ≤ '9' then some (c.toNat - '0'.toNat) else none

/-- Hexadecimal digit value of a character. -/
def hexDigit (c : Char) : Option Nat :=
  if '0' ≤ c ∧ c ≤ '9' then some (c.toNat - '0'.toNat)
  else if 'a' ≤ c ∧ c ≤ 'f' then some (c.toNat - 'a'.toNat + 10)
  else if 'A' ≤ c ∧ c ≤ 'F' then some (c.toNat - 'A'.toNat + 10)
  else none

/-- Reads a non-empty all-digit string in the given base. -/
def digitsToNat (base : Nat) (digit : Char → Option Nat) (l : List Char) : Option Nat :=
  l.foldl
    (fun acc c =>
      match acc, digit c with
      | some n, some d => some (n * base + d)
      | _, _ => none)
    (some 0)

/-- Magnitude of a decimal or `0x`/`0X`-prefixed hexadecimal numeral. -/
def parseMagnitude : List Char → Option Nat
  | '0' :: 'x' :: rest => if rest = [] then none else digitsToNat 16 hexDigit rest
  | '0' :: 'X' :: rest => if rest = [] then none else digitsToNat 16 hexDigit rest
  | l => if l = [] then none else digitsToNat 10 decDigit l

/-- Numeric value of the trimmed text, before any range check: optional
leading `-`, then a decimal or hexadecimal magnitude. -/
def parseIntCore (raw : String) : Option Int :=
  match trimChars raw.data with
  | '-' :: rest => (parseMagnitude rest).map fun m => -(m : Int)
  | l => (parseMagnitude l).map fun m => (m : Int)

/-- Smallest representable value of the integer kind. -/
def intLo (signed : Bool) (width : Nat) : Int :=
  if signed then -(2 ^ (width - 1)) else 0

/-- Largest representable value of the integer kind. -/
def intHi (signed : Bool) (width : Nat) : Int :=
  if signed then 2 ^ (width - 1) - 1 else 2 ^ width - 1

/-- Modelled from the spec: `gopkg.in/gcfg.v1/types`' `ParseInt` with mode
`types.Dec|types.Hex`, which is not part of this repository.  Spec §4.1
step 5: "parse decimal or `0x`-prefixed hexadecimal (leading/trailing
whitespace tolerated and stripped before parsing), then check the parsed
magnitude against the destination width; values outside `[min,max]` for
that width produce an Overflow outcome distinct from ParseFailure.
Malformed numeric text produces ParseFailure." -/
def parseGcfgInt (signed : Bool) (width : Nat) (raw : String) : Except ConvErr Int :=
  match parseIntCore raw with
  | none => .error .parseFailure
  | some z =>
    if intLo signed width ≤ z ∧ z ≤ intHi signed width then .ok z
    else .error .overflow

/-- Scalar cases of `valFromEnvVar` (gcfgenv.go:440-494 and the `default:`
branch at :506-508).  The `TextUnmarshaler` probe, pointer unwrapping and
the float branches (`types.ScanFully`, part of the external dependency)
are not exercised by the claims and are omitted from the model. -/
def scalarFromEnvVar : STy → String → Except ConvErr Scalar
  | .str, env => .ok (.str env)
  | .bool, env =>
    (parseGcfgBool (removeSpaces env)).map .bool
  | .int signed width, env => (parseGcfgInt signed width env).map .int
  | .unsupported, _ => .error (.unsupportedType .unsupported)

/-- Slice element loop of `valFromEnvVar` (gcfgenv.go:495-505): convert each
comma-separated part, aborting with the first element's error. -/
def convParts (t : STy) : List String → Except ConvErr (List Scalar)
  | [] => .ok []
  | p :: ps => do
    let v ← scalarFromEnvVar t p
    let vs ← convParts t ps
    .ok (v :: vs)

/-- The value converter `valFromEnvVar` (gcfgenv.go:414-509) on the type
shapes the repository uses. -/
def valFromEnvVar : Ty → String → Except ConvErr Val
  | .scalar t, env => (scalarFromEnvVar t env).map .scalar
  | .slice t, env => (convParts t (splitComma env)).map .slice

/-! ## Configuration object shape -/

/-- A struct field: Go name, `gcfg` tag (empty when absent), exportedness
(which also determines `CanSet` on the addressable values the walker
builds), and type. -/
structure Field where
  name : String
  tag : String
  exported : Bool
  ty : Ty
deriving DecidableEq, Repr

/-- A subsection record or flat-section value: one value per declared
field, positionally aligned with the field list. -/
abbrev Record := List Val

/-- Content of a top-level struct field of the configuration object:
a flat section (`reflect.Struct`), a dynamic section
(`map[string]*struct`, entries listed in some iteration order), or a
non-section kind (ignored by the walker, gcfgenv.go:408-409).  A nil Go
map and an empty one are both `[]`: the walker's `MakeMap` at
gcfgenv.go:381 only makes the map writable and has no observable
counterpart here. -/
inductive SecContent where
  | structSec (fields : List Field) (vals : Record)
  | mapSec (fields : List Field) (entries : List (String × Record))
  | nonSection
deriving DecidableEq, Repr

/-- A top-level struct field of the configuration object. -/
structure Sec where
  name : String
  tag : String
  exported : Bool
  content : SecContent
deriving DecidableEq, Repr

/-- The configuration object: its top-level fields in declaration order. -/
abbrev Config := List Sec

/-- The environment map.  Keys are unique (it is built from a Go map);
the list order stands in for Go's unspecified map iteration order. -/
abbrev EnvMap := List (String × String)

/-- Zero-valued record of a field list (`reflect.Zero(subsecType)`). -/
def zeroRecord (fields : List Field) : Record := fields.map fun f => zeroVal f.ty

/-- `fieldToEnvVar` (gcfgenv.go:260-268): the tag, dashes mapped to
underscores, upper-cased; or the upper-cased Go field name when there is
no tag. -/
def fieldToEnvVar (name tag : String) : String :=
  if tag = "" then toUpperStr name
  else toUpperStr ⟨tag.data.map dashToUnderscore⟩

/-! ## Structure overlay walker (`setGcfgWithEnvMap`, gcfgenv.go:270-412) -/

/-- Overlay outcomes.  `panicSliceElem` models the run-time panic raised by
`reflect.Value.Elem` when its receiver is a slice-kinded value: Go only
permits `Elem` on interfaces and pointers, and gcfgenv.go:349 and :395
call it on values just checked to be of slice kind. -/
inductive WalkErr where
  | conv (e : ConvErr)
  | panicSliceElem
deriving DecidableEq, Repr

/-- `reflect.AppendSlice` on two slice values of the same type.  (On other
inputs Go panics; the walker only reaches it with two slices.) -/
def appendVal (old new : Val) : Val :=
  match old, new with
  | .slice xs, .slice ys => .slice (xs ++ ys)
  | _, n => n

/-- Flat-section field loop (gcfgenv.go:284-304): for each field in
declaration order, skip it if unexported, look up its derived key, convert
on a hit — returning the conversion error immediately — and write back,
appending for slice fields (`reflect.AppendSlice(f, newRef)`). -/
def overlayFields (secPre : String) (env : EnvMap) :
    List Field → Record → Option WalkErr × Record
  | [], vs => (none, vs)
  | _ :: _, [] => (none, [])
  | f :: fs, v :: vs =>
    if f.exported = false then
      let r := overlayFields secPre env fs vs
      (r.1, v :: r.2)
    else
      match lookupKV (secPre ++ "_" ++ fieldToEnvVar f.name f.tag) env with
      | none =>
        let r := overlayFields secPre env fs vs
        (r.1, v :: r.2)
      | some s =>
        match valFromEnvVar f.ty s with
        | .error ce => (some (.conv ce), v :: vs)
        | .ok nv =>
          let vNew := if f.ty.isSlice then appendVal v nv else nv
          let r := overlayFields secPre env fs vs
          (r.1, vNew :: r.2)

/-- Dynamic-section partition (gcfgenv.go:312-322): keep the entries whose
key starts with `secPrefix ++ "_"`, strip that prefix
(`strings.Replace(e, secPrefix+"_", "", 1)`; the prefix occurrence is the
leftmost one), and drop entries whose relative key is empty. -/
def partitionEnv (secPre : String) (env : EnvMap) : List (String × String) :=
  env.filterMap fun kv =>
    if startsWithStr kv.1 (secPre ++ "_") = false then none
    else
      let nk := replaceFirst kv.1 (secPre ++ "_")
      if nk = "" then none else some (nk, kv.2)

/-- Existing-subsection field loop (gcfgenv.go:332-353): for each field of
the record, skip it if unexported, look up `key ++ fieldToEnvVar` in the
partitioned set, delete a hit from the set before converting, return a
conversion error immediately, and write back — except that for slice
fields the source computes `reflect.AppendSlice(f.Elem(), newRef)`
(gcfgenv.go:349), and `Elem` on the slice-kinded `f` panics. -/
def overlaySubsecFields (key : String) :
    List Field → Record → List (String × String) →
    Option WalkErr × Record × List (String × String)
  | [], vs, part => (none, vs, part)
  | _ :: _, [], part => (none, [], part)
  | f :: fs, v :: vs, part =>
    if f.exported = false then
      let r := overlaySubsecFields key fs vs part
      (r.1, v :: r.2.1, r.2.2)
    else
      match lookupKV (key ++ fieldToEnvVar f.name f.tag) part with
      | none =>
        let r := overlaySubsecFields key fs vs part
        (r.1, v :: r.2.1, r.2.2)
      | some s =>
        let part1 := eraseKV (key ++ fieldToEnvVar f.name f.tag) part
        match valFromEnvVar f.ty s with
        | .error ce => (some (.conv ce), v :: vs, part1)
        | .ok nv =>
          if f.ty.isSlice then (some .panicSliceElem, v :: vs, part1)
          else
            let r := overlaySubsecFields key fs vs part1
            (r.1, nv :: r.2.1, r.2.2)

/-- Existing-entry pass (gcfgenv.go:324-354): for every subsection already
in the map, derive its relative-key prefix (`name ++ "_"`, or `""` when the
subsection name is empty) and run the field loop, threading the shrinking
partitioned set. -/
def existingPass (fields : List Field) :
    List (String × Record) → List (String × String) →
    Option WalkErr × List (String × Record) × List (String × String)
  | [], part => (none, [], part)
  | entry :: rest, part =>
    let key := if entry.1 = "" then "" else entry.1 ++ "_"
    match overlaySubsecFields key fields entry.2 part with
    | (some e, r1, part1) => (some e, (entry.1, r1) :: rest, part1)
    | (none, r1, part1) =>
      let t := existingPass fields rest part1
      (t.1, (entry.1, r1) :: t.2.1, t.2.2)

/-- Write field `j` of the record stored under `k`.  The Go code mutates
the record through the pointer stored in the map (gcfgenv.go:394-398). -/
def setRecField (entries : List (String × Record)) (k : String) (j : Nat) (v : Val) :
    List (String × Record) :=
  entries.map fun kv => if kv.1 = k then (kv.1, kv.2.set j v) else kv

/-- New-subsection inner loop for one declared field (gcfgenv.go:374-402):
for each remaining partitioned entry whose relative key ends with the
field's suffix, the new subsection name is the relative key with the
*first* occurrence of the suffix removed (`strings.Replace(e, suf, "", 1)`,
gcfgenv.go:378).  A missing record is created from `defaults` and inserted
before the value is converted; conversion errors surface immediately; for
slice fields the source computes
`reflect.AppendSlice(f.Elem().Field(j).Elem(), newRef)` (gcfgenv.go:395),
and the trailing `Elem` on the slice-kinded field panics.  Consumed
entries are deleted from the remaining set. -/
def newPassField (suf : String) (t : Ty) (j : Nat) (defaults : Record) :
    List (String × String) → List (String × Record) →
    Option WalkErr × List (String × Record) × List (String × String)
  | [], entries => (none, entries, [])
  | ev :: rest, entries =>
    if endsWithStr ev.1 suf = false then
      let r := newPassField suf t j defaults rest entries
      (r.1, r.2.1, ev :: r.2.2)
    else
      let k := replaceFirst ev.1 suf
      let entries1 :=
        if (lookupKV k entries).isSome then entries else entries ++ [(k, defaults)]
      match valFromEnvVar t ev.2 with
      | .error ce => (some (.conv ce), entries1, rest)
      | .ok nv =>
        if t.isSlice then (some .panicSliceElem, entries1, rest)
        else newPassField suf t j defaults rest (setRecField entries1 k j nv)

/-- New-subsection pass (gcfgenv.go:368-403): for each declared field of
the record type, in declaration order and paired with its index, skip it
if unexported, otherwise scan the remaining partitioned entries for its
suffix. -/
def newPass (defaults : Record) :
    List (Nat × Field) → List (String × Record) → List (String × String) →
    Option WalkErr × List (String × Record) × List (String × String)
  | [], entries, part => (none, entries, part)
  | jf :: rest, entries, part =>
    if jf.2.exported = false then newPass defaults rest entries part
    else
      let suf := "_" ++ fieldToEnvVar jf.2.name jf.2.tag
      match newPassField suf jf.2.ty jf.1 defaults part entries with
      | (some e, entries1, part1) => (some e, entries1, part1)
      | (none, entries1, part1) => newPass defaults rest entries1 part1

/-- Default Subsection Record lookup
(`ref.FieldByName("Default_" + secStructField.Name)`, gcfgenv.go:363-367):
search the configuration object for a field with that exact Go name; when
present its current value seeds new records, otherwise the zero record
does.  The Go type system guarantees a declared `Default_` sibling has the
subsection record type (anything else would make `Set` panic at
gcfgenv.go:387), so only a flat-struct hit is meaningful. -/
def lookupDefaults (cfg : Config) (secName : String) (fields : List Field) : Record :=
  match cfg.find? fun s => s.name = "Default_" ++ secName with
  | some s =>
    match s.content with
    | .structSec _ vals => vals
    | _ => zeroRecord fields
  | none => zeroRecord fields

/-- Overlay of one top-level section (the body of the loop at
gcfgenv.go:272-410).  `cfgView` is the whole configuration object as it
stands when this section is processed; it is read only by
`lookupDefaults`, and the section being processed is never its own
`Default_` sibling, so passing the pre-step view is faithful. -/
def overlayOneSec (cfgView : Config) (pre : String) (env : EnvMap) (s : Sec) :
    Option WalkErr × Sec :=
  if s.exported = false then (none, s)
  else
    let secPre := pre ++ fieldToEnvVar s.name s.tag
    match s.content with
    | .structSec fields vals =>
      let r := overlayFields secPre env fields vals
      (r.1, ⟨s.name, s.tag, s.exported, .structSec fields r.2⟩)
    | .mapSec fields entries =>
      let part := partitionEnv secPre env
      match existingPass fields entries part with
      | (some e, entries1, _) =>
        (some e, ⟨s.name, s.tag, s.exported, .mapSec fields entries1⟩)
      | (none, entries1, part1) =>
        if part1 = [] then (none, ⟨s.name, s.tag, s.exported, .mapSec fields entries1⟩)
        else
          let defaults := lookupDefaults cfgView s.name fields
          let r := newPass defaults fields.enum entries1 part1
          (r.1, ⟨s.name, s.tag, s.exported, .mapSec fields r.2.1⟩)
    | .nonSection => (none, s)

/-- Fold of `setGcfgWithEnvMap`'s top-level loop: `done` holds the already
processed (possibly mutated) sections, `todo` the rest; the first error
stops the walk with the object in its partially-overlaid state. -/
def setGcfgAux (pre : String) (env : EnvMap) :
    Config → Config → Option WalkErr × Config
  | done, [] => (none, done)
  | done, s :: rest =>
    match overlayOneSec (done ++ s :: rest) pre env s with
    | (some e, s1) => (some e, done ++ s1 :: rest)
    | (none, s1) => setGcfgAux pre env (done ++ [s1]) rest

/-- `setGcfgWithEnvMap` (gcfgenv.go:270-412): walk the top-level sections
in declaration order, mutating the object in place; the pair returned here
carries the Go function's error result together with the mutated object. -/
def setGcfgWithEnvMap (cfg : Config) (pre : String) (env : EnvMap) :
    Option WalkErr × Config :=
  setGcfgAux pre env [] cfg

/-! ## Entry points (`readWithMapInto`, `mapFromEnviron`) -/

/-- Result of the upstream base parser `gcfg.ReadInto`, abstracted:
`gcfg.FatalOnly` is non-nil exactly on `fatal`. -/
inductive Upstream where
  | ok
  | warning
  | fatal
deriving DecidableEq, Repr

/-- The single error value `readWithMapInto` returns. -/
inductive ReadErr where
  | upstreamFatal
  | upstreamWarning
  | overlayErr (e : WalkErr)
deriving DecidableEq, Repr

/-- Prefix normalization (gcfgenv.go:248-250): a non-empty prefix not
already ending in `"_"` gets one appended. -/
def addTrailingUnderscore (p : String) : String :=
  if p ≠ "" ∧ endsWithStr p "_" = false then p ++ "_" else p

/-- `readWithMapInto` (gcfgenv.go:242-258).  The base parser is an external
collaborator, so it is abstracted by its outcome `upstream` and the object
`parsed` it populated.  A fatal upstream error returns immediately; the
overlay then runs, its error taking precedence, and a successful overlay
surfaces the deferred upstream warning.  The returned pair carries the
single error value together with the final state of the object. -/
def readWithMapInto (upstream : Upstream) (parsed : Config) (env : EnvMap)
    (pre : String) : Option ReadErr × Config :=
  if upstream = .fatal then (some .upstreamFatal, parsed)
  else
    match setGcfgWithEnvMap parsed (addTrailingUnderscore pre) env with
    | (some e, cfg) => (some (.overlayErr e), cfg)
    | (none, cfg) =>
      (if upstream = .warning then some .upstreamWarning else none, cfg)

/-- First-`'='` split of one environ entry, `strings.SplitN(entry, "=", 2)`
followed by `parts[0]`/`parts[1]` (gcfgenv.go:236-237).  An entry with no
`'='` at all would make the Go code panic on `parts[1]`; here it yields an
empty value, and the theorems only quantify over well-formed entries. -/
def splitEqL : List Char → List Char × List Char
  | [] => ([], [])
  | c :: rest =>
    if c = '=' then ([], rest)
    else
      let r := splitEqL rest
      (c :: r.1, r.2)

/-- Insert-or-replace, modelling the Go map assignment `out[k] = v`. -/
def insertEnv (m : EnvMap) (k v : String) : EnvMap :=
  if (lookupKV k m).isSome then m.map fun kv => if kv.1 = k then (k, v) else kv
  else m ++ [(k, v)]

/-- `mapFromEnviron` (gcfgenv.go:233-240): split each `NAME=value` entry at
the first `'='` and store key and remainder. -/
def mapFromEnviron (environ : List String) : EnvMap :=
  environ.foldl
    (fun m entry =>
      let r := splitEqL entry.data
      insertEnv m ⟨r.1⟩ ⟨r.2⟩)
    []

/-! ## Spec-side definitions

These two definitions are written from the spec's words, not from the
source, and exist only to be compared against the source-derived
definitions above. -/

/-- Written from the spec (§4.2, new-subsection pass): "the text preceding
that suffix is the new subsection's name" — the relative key with its
trailing suffix removed. -/
def specNewSubName (e suf : String) : String :=
  ⟨e.data.take (e.data.length - suf.data.length)⟩

/-- Written from the spec (§4.1 step 4): "strip all whitespace from the
text" — all whitespace, not only space characters. -/
def specStripWhitespace (s : String) : String :=
  ⟨s.data.filter fun c => !c.isWhitespace⟩

/-! ## Helper lemmas -/

theorem string_mk_data (s : String) : String.mk s.data = s := rfl

theorem replaceFirstL_cons (c : Char) (rest pat : List Char) :
    replaceFirstL (c :: rest) pat =
      if pat.isPrefixOf (c :: rest) then List.drop pat.length (c :: rest)
      else c :: replaceFirstL rest pat := rfl

theorem replaceFirstL_append_self (pat : List Char) (hpat : pat ≠ []) :
    ∀ a : List Char,
      (∀ i, i < a.length → pat.isPrefixOf (List.drop i (a ++ pat)) = false) →
      replaceFirstL (a ++ pat) pat = a := by
  intro a
  induction a with
  | nil =>
    intro _
    cases pat with
    | nil => exact absurd rfl hpat
    | cons c rest =>
      rw [List.nil_append, replaceFirstL_cons, if_pos]
      · exact List.drop_length _
      · exact List.isPrefixOf_iff_prefix.mpr (List.prefix_refl _)
  | cons c a ih =>
    intro h
    have h0 := h 0 (by simp)
    simp only [List.drop_zero, List.cons_append] at h0
    have hneg : ¬ pat.isPrefixOf (c :: (a ++ pat)) = true := by simp [h0]
    rw [List.cons_append, replaceFirstL_cons, if_neg hneg]
    refine congrArg (List.cons c) (ih fun i hi => ?_)
    have := h (i + 1) (by simpa using Nat.succ_lt_succ hi)
    simpa using this

theorem splitEqL_append (value : List Char) :
    ∀ name : List Char, '=' ∉ name →
      splitEqL (name ++ '=' :: value) = (name, value) := by
  intro name
  induction name with
  | nil => intro _; simp [splitEqL]
  | cons c rest ih =>
    intro h
    have hc : c ≠ '=' := fun hc => h (hc ▸ List.mem_cons_self c rest)
    have hrest : '=' ∉ rest := fun hm => h (List.mem_cons_of_mem c hm)
    simp [splitEqL, hc, ih hrest]

/-! ## Claims -/

/-- Claim C1.  The claim states that for every sequence-valued (slice)
field with a matching environment key — in flat sections, in existing
subsection records of a dynamic section, and in newly created subsection
records alike — the overlay appends the converted environment-derived
sequence to the sequence already held (e.g. `["a"]` overridden with
`"b,c"` ends as `["a","b","c"]`).  This holds for flat sections (first
conjunct), but in both dynamic-section paths the code is a slip: it calls
`reflect.Value.Elem` on a value just checked to be of slice kind
(`reflect.AppendSlice(f.Elem(), newRef)` at gcfgenv.go:349 and
`...Field(j).Elem()` at gcfgenv.go:395), which panics at run time, so the
append documented by the spec (and by the repository's own README
example, `APPNAME_SEC_k1_OTHER_FIELD=zebras,elephants`) never happens
there: the claim is right and the code is wrong.  The second conjunct
evaluates the walker on an existing subsection record, the third on a
newly created one. -/
theorem c1_slice_append_flat_ok_dynamic_panics :
    setGcfgWithEnvMap
        [⟨"Sec", "", true, .structSec [⟨"F", "", true, .slice .str⟩]
          [.slice [.str "a"]]⟩]
        "" [("SEC_F", "b,c")]
      = (none, [⟨"Sec", "", true, .structSec [⟨"F", "", true, .slice .str⟩]
          [.slice [.str "a", .str "b", .str "c"]]⟩]) ∧
    setGcfgWithEnvMap
        [⟨"Sec", "", true, .mapSec [⟨"F", "", true, .slice .str⟩]
          [("k1", [.slice [.str "a"]])]⟩]
        "" [("SEC_k1_F", "b,c")]
      = (some .panicSliceElem,
         [⟨"Sec", "", true, .mapSec [⟨"F", "", true, .slice .str⟩]
          [("k1", [.slice [.str "a"]])]⟩]) ∧
    setGcfgWithEnvMap
        [⟨"Sec", "", true, .mapSec [⟨"F", "", true, .slice .str⟩] []⟩]
        "" [("SEC_k1_F", "b,c")]
      = (some .panicSliceElem,
         [⟨"Sec", "", true, .mapSec [⟨"F", "", true, .slice .str⟩]
          [("k1", [.slice []])]⟩]) := by
  refine ⟨by decide, by decide, by decide⟩

/-- Claim C2, counterexample.  The claim states that in the new-subsection
pass the subsection name is always exactly the text preceding the trailing
`"_" ++ FIELDNAME` suffix, even when the same text also occurs earlier in
the relative key.  For the relative key `"A_F_B_F"` and field `F`, the
text preceding the trailing suffix is `"A_F_B"`, but the code removes the
*first* occurrence of `"_F"` (`strings.Replace(e, suf, "", 1)`,
gcfgenv.go:378) and creates the subsection `"A_B_F"` instead. -/
theorem c2_counterexample :
    specNewSubName "A_F_B_F" "_F" = "A_F_B" ∧
    setGcfgWithEnvMap
        [⟨"Sec", "", true, .mapSec [⟨"F", "", true, .scalar .str⟩] []⟩]
        "" [("SEC_A_F_B_F", "v")]
      = (none,
         [⟨"Sec", "", true, .mapSec [⟨"F", "", true, .scalar .str⟩]
          [("A_B_F", [.scalar (.str "v")])]⟩]) ∧
    ("A_B_F" : String) ≠ "A_F_B" := by
  refine ⟨by decide, by decide, by decide⟩

/-- Claim C2, as amended.  The new subsection's name is the relative key
with the *first* occurrence of `"_" ++ FIELDNAME` removed; this equals the
text preceding the trailing suffix exactly when the suffix text occurs at
no earlier position of the relative key.  Stated over `replaceFirst`, the
embedding of the `strings.Replace(e, suf, "", 1)` call at gcfgenv.go:378,
and compared with the spec-side `specNewSubName`; the final conjunct
re-runs the walker on a relative key whose suffix occurs only at the end,
where code and spec agree. -/
theorem c2_new_subsection_name (a suf : String) (hpat : suf.data ≠ [])
    (h : ∀ i, i < a.data.length →
      suf.data.isPrefixOf (List.drop i (a.data ++ suf.data)) = false) :
    replaceFirst ⟨a.data ++ suf.data⟩ suf = a ∧
    specNewSubName ⟨a.data ++ suf.data⟩ suf = a ∧
    setGcfgWithEnvMap
        [⟨"Sec", "", true, .mapSec [⟨"F", "", true, .scalar .str⟩] []⟩]
        "" [("SEC_k1_F", "v")]
      = (none,
         [⟨"Sec", "", true, .mapSec [⟨"F", "", true, .scalar .str⟩]
          [("k1", [.scalar (.str "v")])]⟩]) := by
  refine ⟨?_, ?_, by decide⟩
  · show String.mk (replaceFirstL (a.data ++ suf.data) suf.data) = a
    rw [replaceFirstL_append_self suf.data hpat a.data h]
  · show String.mk (List.take ((a.data ++ suf.data).length - suf.data.length)
      (a.data ++ suf.data)) = a
    rw [List.length_append, Nat.add_sub_cancel, List.take_left]

/-- Witness for `c2_new_subsection_name` at `a = "A_B"`, `suf = "_F"`. -/
theorem c2_new_subsection_name_witness :
    replaceFirst "A_B_F" "_F" = "A_B" :=
  (c2_new_subsection_name "A_B" "_F" (by decide) (by decide)).1

/-- Claim C10.  `mapFromEnviron` splits each `NAME=value` entry at the
first `'='` only: the key is the text before the first `'='` and the value
is the entire remainder, so values containing `'='` are preserved
verbatim.  The first conjunct states this for an arbitrary well-formed
entry (the value may itself contain `'='`); the second conjunct evaluates
the function on the test suite's environ, whose last value is base64 text
with a trailing `'='`. -/
theorem c10_environ_split_at_first_eq (name value : String)
    (h : '=' ∉ name.data) :
    mapFromEnviron [⟨name.data ++ '=' :: value.data⟩] = [(name, value)] ∧
    mapFromEnviron
        ["APPNAME_SEC_FIELD=geese",
         "APPNAME_SEC_k1_FIELD=cats",
         "APPNAME_SEC_k1_OTHER_FIELD=zebras,elephants",
         "APPNAME_SEC_k1_KEY=f4Q8N6PFcZKi9EK8NfvRbDgeUMkHyw9mXkMK/kPEi5Q="]
      = [("APPNAME_SEC_FIELD", "geese"),
         ("APPNAME_SEC_k1_FIELD", "cats"),
         ("APPNAME_SEC_k1_OTHER_FIELD", "zebras,elephants"),
         ("APPNAME_SEC_k1_KEY", "f4Q8N6PFcZKi9EK8NfvRbDgeUMkHyw9mXkMK/kPEi5Q=")] := by
  refine ⟨?_, by decide⟩
  show insertEnv [] ⟨(splitEqL (name.data ++ '=' :: value.data)).1⟩
    ⟨(splitEqL (name.data ++ '=' :: value.data)).2⟩ = [(name, value)]
  rw [splitEqL_append value.data name.data h]
  rfl

/-- Witness for `c10_environ_split_at_first_eq` at a name-value pair whose
value contains `'='` characters. -/
theorem c10_environ_split_at_first_eq_witness :
    mapFromEnviron ["KEY=YWJjZA=="] = [("KEY", "YWJjZA==")] := by
  have h := (c10_environ_split_at_first_eq "KEY" "YWJjZA==" (by decide)).1
  simpa using h

/-- Claim C3.  `readWithMapInto` (gcfgenv.go:242-258) combines the upstream
parser result with the overlay's: a fatal upstream error is returned and
the overlay never runs, leaving the object exactly as parsed; on a
non-fatal upstream warning the overlay still runs, the overlay's error is
the one returned when the overlay fails, and a successful overlay returns
the original warning, so it is never silently swallowed.  At most one
error value is returned: the error result is a single `Option ReadErr`. -/
theorem c3_upstream_error_combination (parsed : Config) (env : EnvMap) (p : String) :
    readWithMapInto .fatal parsed env p = (some .upstreamFatal, parsed) ∧
    (∀ u, u ≠ Upstream.fatal → ∀ e cfg,
      setGcfgWithEnvMap parsed (addTrailingUnderscore p) env = (some e, cfg) →
      readWithMapInto u parsed env p = (some (.overlayErr e), cfg)) ∧
    (∀ cfg, setGcfgWithEnvMap parsed (addTrailingUnderscore p) env = (none, cfg) →
      readWithMapInto .warning parsed env p = (some .upstreamWarning, cfg)) ∧
    (∀ cfg, setGcfgWithEnvMap parsed (addTrailingUnderscore p) env = (none, cfg) →
      readWithMapInto .ok parsed env p = (none, cfg)) := by
  refine ⟨rfl, ?_, ?_, ?_⟩
  · intro u hu e cfg hset
    cases u with
    | fatal => exact absurd rfl hu
    | warning => simp [readWithMapInto, hset]
    | ok => simp [readWithMapInto, hset]
  · intro cfg hset
    simp [readWithMapInto, hset]
  · intro cfg hset
    simp [readWithMapInto, hset]

/-- Witness for `c3_upstream_error_combination` on a one-field config with
an `int8` field: a failing overlay (`SEC_F=nope`) under a warning, a
successful overlay (`SEC_F=7`) under a warning, and a fatal upstream
error. -/
theorem c3_upstream_error_combination_witness :
    readWithMapInto .warning
        [⟨"Sec", "", true, .structSec [⟨"F", "", true, .scalar (.int true 8)⟩]
          [.scalar (.int 0)]⟩]
        [("SEC_F", "nope")] ""
      = (some (.overlayErr (.conv .parseFailure)),
         [⟨"Sec", "", true, .structSec [⟨"F", "", true, .scalar (.int true 8)⟩]
          [.scalar (.int 0)]⟩]) ∧
    readWithMapInto .warning
        [⟨"Sec", "", true, .structSec [⟨"F", "", true, .scalar (.int true 8)⟩]
          [.scalar (.int 0)]⟩]
        [("SEC_F", "7")] ""
      = (some .upstreamWarning,
         [⟨"Sec", "", true, .structSec [⟨"F", "", true, .scalar (.int true 8)⟩]
          [.scalar (.int 7)]⟩]) ∧
    readWithMapInto .fatal
        [⟨"Sec", "", true, .structSec [⟨"F", "", true, .scalar (.int true 8)⟩]
          [.scalar (.int 0)]⟩]
        [("SEC_F", "7")] ""
      = (some .upstreamFatal,
         [⟨"Sec", "", true, .structSec [⟨"F", "", true, .scalar (.int true 8)⟩]
          [.scalar (.int 0)]⟩]) := by
  refine ⟨?_, ?_, ?_⟩
  · exact (c3_upstream_error_combination _ [("SEC_F", "nope")] "").2.1 .warning
      (by decide) (.conv .parseFailure) _ (by decide)
  · exact (c3_upstream_error_combination _ [("SEC_F", "7")] "").2.2.1 _ (by decide)
  · exact (c3_upstream_error_combination _ [("SEC_F", "7")] "").1

/-- Claim C7, counterexample.  The claim states boolean conversion first
strips all whitespace and, on the so-stripped text, any accepted token
parses — so a whitespace-padded accepted token converts like the bare
token.  The source strips only space characters
(`strings.ReplaceAll(env, " ", "")`, gcfgenv.go:444): on `"\t1"` the claim
predicts `true` (the spec-side whitespace strip leaves the accepted token
`"1"`), but the code leaves the tab in place and fails to parse. -/
theorem c7_counterexample :
    valFromEnvVar (.scalar .bool) "\t1" = .error .parseFailure ∧
    specStripWhitespace "\t1" = "1" ∧
    parseGcfgBool (specStripWhitespace "\t1") = .ok true := by
  refine ⟨by decide, by decide, by decide⟩

/-- Claim C7, as amended.  Boolean conversion strips all *space*
characters (`' '` only, not all whitespace) from the text — interior ones
included — and parses the result with the multi-token grammar: `1`,
`true`/`t`, `yes`/`y`, `on` for true and `0`, `false`/`f`, `no`/`n`, `off`
for false, case-insensitively; other content is a parse failure.  The
first conjunct proves the space-padded form of any text converts exactly
like the bare text; the rest checks the grammar. -/
theorem c7_bool_space_stripping_and_grammar :
    (∀ (l r : List Char) (t : String),
      (∀ c ∈ l, c = ' ') → (∀ c ∈ r, c = ' ') →
      valFromEnvVar (.scalar .bool) ⟨l ++ t.data ++ r⟩ =
        valFromEnvVar (.scalar .bool) t) ∧
    valFromEnvVar (.scalar .bool) "1" = .ok (.scalar (.bool true)) ∧
    valFromEnvVar (.scalar .bool) "TRUE" = .ok (.scalar (.bool true)) ∧
    valFromEnvVar (.scalar .bool) "t" = .ok (.scalar (.bool true)) ∧
    valFromEnvVar (.scalar .bool) "Yes" = .ok (.scalar (.bool true)) ∧
    valFromEnvVar (.scalar .bool) "y" = .ok (.scalar (.bool true)) ∧
    valFromEnvVar (.scalar .bool) "on" = .ok (.scalar (.bool true)) ∧
    valFromEnvVar (.scalar .bool) "0" = .ok (.scalar (.bool false)) ∧
    valFromEnvVar (.scalar .bool) "False" = .ok (.scalar (.bool false)) ∧
    valFromEnvVar (.scalar .bool) "f" = .ok (.scalar (.bool false)) ∧
    valFromEnvVar (.scalar .bool) "NO" = .ok (.scalar (.bool false)) ∧
    valFromEnvVar (.scalar .bool) "n" = .ok (.scalar (.bool false)) ∧
    valFromEnvVar (.scalar .bool) "oFF" = .ok (.scalar (.bool false)) ∧
    valFromEnvVar (.scalar .bool) " o n " = .ok (.scalar (.bool true)) ∧
    valFromEnvVar (.scalar .bool) "notabool" = .error .parseFailure := by
  refine ⟨?_, by decide, by decide, by decide, by decide, by decide, by decide,
    by decide, by decide, by decide, by decide, by decide, by decide, by decide,
    by decide⟩
  intro l r t hl hr
  have hfl : l.filter (· != ' ') = [] :=
    List.filter_eq_nil_iff.mpr fun a ha => by simp [hl a ha]
  have hfr : r.filter (· != ' ') = [] :=
    List.filter_eq_nil_iff.mpr fun a ha => by simp [hr a ha]
  have hrem : removeSpaces ⟨l ++ t.data ++ r⟩ = removeSpaces t := by
    show String.mk ((l ++ t.data ++ r).filter (· != ' '))
      = String.mk (t.data.filter (· != ' '))
    rw [List.filter_append, List.filter_append, hfl, hfr, List.nil_append,
      List.append_nil]
  show Except.map Val.scalar
      (Except.map Scalar.bool (parseGcfgBool (removeSpaces ⟨l ++ t.data ++ r⟩)))
    = Except.map Val.scalar (Except.map Scalar.bool (parseGcfgBool (removeSpaces t)))
  rw [hrem]

/-- Witness for `c7_bool_space_stripping_and_grammar`: two spaces around
(and none inside) the token `yes`. -/
theorem c7_bool_space_stripping_and_grammar_witness :
    valFromEnvVar (.scalar .bool) " yes  " = valFromEnvVar (.scalar .bool) "yes" := by
  have h := c7_bool_space_stripping_and_grammar.1 [' '] [' ', ' '] "yes"
    (by decide) (by decide)
  simpa using h

theorem dropWhile_append_of_all {p : Char → Bool} (l r : List Char)
    (h : ∀ c ∈ l, p c = true) :
    (l ++ r).dropWhile p = r.dropWhile p := by
  induction l with
  | nil => rfl
  | cons c l ih =>
    have hc := h c (List.mem_cons_self c l)
    simp only [List.cons_append, List.dropWhile_cons, hc, if_true]
    exact ih fun d hd => h d (List.mem_cons_of_mem c hd)

theorem trimChars_pad (l x r : List Char)
    (hl : ∀ c ∈ l, c.isWhitespace = true) (hr : ∀ c ∈ r, c.isWhitespace = true) :
    trimChars (l ++ x ++ r) = trimChars x := by
  unfold trimChars
  rw [List.append_assoc, dropWhile_append_of_all l (x ++ r) hl]
  by_cases hx : x.dropWhile Char.isWhitespace = []
  · rw [List.dropWhile_append, hx]
    simp only [List.isEmpty_nil, if_true]
    rw [List.dropWhile_eq_nil_iff.mpr hr]
  · rw [List.dropWhile_append]
    have hne : (x.dropWhile Char.isWhitespace).isEmpty = false := by
      simpa [List.isEmpty_iff] using hx
    rw [hne]
    simp only [Bool.false_eq_true, if_false]
    rw [List.reverse_append]
    rw [dropWhile_append_of_all r.reverse _
      (fun c hc => hr c (List.mem_reverse.mp hc))]

/-- Claim C8.  For every fixed-width signed or unsigned integer target,
conversion strips leading/trailing whitespace before parsing decimal or
`0x`-prefixed hexadecimal text — so a whitespace-padded numeral converts
exactly like the bare one — and well-formed text whose value lies outside
the destination width's `[min,max]` range yields an overflow outcome
distinct from a parse failure, while malformed text yields a parse
failure.  First conjunct: padding invariance for arbitrary whitespace
padding.  Second conjunct: the three outcomes are exactly success of an
in-range parsed value, overflow of an out-of-range parsed value, and
parse failure of unparsable text.  The remaining conjuncts evaluate the
spec's own examples, `"  0xff    "` versus `"0xff"` and `"128"` at signed
width 8 (gcfg's `types.ParseInt` is external to the repository; it is
modelled from the spec as `parseGcfgInt`). -/
theorem c8_int_conversion :
    (∀ (l r : List Char) (s : String) (sg : Bool) (w : Nat),
      (∀ c ∈ l, c.isWhitespace = true) → (∀ c ∈ r, c.isWhitespace = true) →
      valFromEnvVar (.scalar (.int sg w)) ⟨l ++ s.data ++ r⟩ =
        valFromEnvVar (.scalar (.int sg w)) s) ∧
    (∀ (sg : Bool) (w : Nat) (raw : String),
      (∀ z, parseGcfgInt sg w raw = .ok z →
        parseIntCore raw = some z ∧ intLo sg w ≤ z ∧ z ≤ intHi sg w) ∧
      (parseGcfgInt sg w raw = .error .overflow →
        ∃ z, parseIntCore raw = some z ∧ ¬(intLo sg w ≤ z ∧ z ≤ intHi sg w)) ∧
      (parseGcfgInt sg w raw = .error .parseFailure → parseIntCore raw = none)) ∧
    valFromEnvVar (.scalar (.int false 8)) "  0xff    " = .ok (.scalar (.int 255)) ∧
    valFromEnvVar (.scalar (.int false 8)) "0xff" = .ok (.scalar (.int 255)) ∧
    valFromEnvVar (.scalar (.int true 8)) "128" = .error .overflow ∧
    valFromEnvVar (.scalar (.int true 8)) "127" = .ok (.scalar (.int 127)) ∧
    valFromEnvVar (.scalar (.int true 8)) "-129" = .error .overflow ∧
    valFromEnvVar (.scalar (.int true 8)) "-128" = .ok (.scalar (.int (-128))) ∧
    valFromEnvVar (.scalar (.int false 8)) "256" = .error .overflow ∧
    valFromEnvVar (.scalar (.int false 8)) "255" = .ok (.scalar (.int 255)) ∧
    valFromEnvVar (.scalar (.int true 8)) "notanint" = .error .parseFailure := by
  refine ⟨?_, ?_, by decide, by decide, by decide, by decide, by decide,
    by decide, by decide, by decide, by decide⟩
  · intro l r s sg w hl hr
    have hcore : parseIntCore ⟨l ++ s.data ++ r⟩ = parseIntCore s := by
      unfold parseIntCore
      rw [show (String.mk (l ++ s.data ++ r)).data = l ++ s.data ++ r from rfl,
        trimChars_pad l s.data r hl hr]
    show Except.map Val.scalar (Except.map Scalar.int (parseGcfgInt sg w ⟨l ++ s.data ++ r⟩))
      = Except.map Val.scalar (Except.map Scalar.int (parseGcfgInt sg w s))
    unfold parseGcfgInt
    rw [hcore]
  · intro sg w raw
    refine ⟨?_, ?_, ?_⟩
    · intro z h
      unfold parseGcfgInt at h
      split at h
      · exact absurd h (by simp)
      · rename_i z0 hc
        split at h
        · rename_i hrange
          cases h
          exact ⟨hc, hrange⟩
        · exact absurd h (by simp)
    · intro h
      unfold parseGcfgInt at h
      split at h
      · exact absurd h (by simp)
      · rename_i z0 hc
        split at h
        · exact absurd h (by simp)
        · rename_i hrange
          exact ⟨z0, hc, hrange⟩
    · intro h
      unfold parseGcfgInt at h
      split at h
      · rename_i hc
        exact hc
      · rename_i z0 hc
        split at h
        · exact absurd h (by simp)
        · exact absurd h (by simp)

/-- Witness for `c8_int_conversion`: tab-and-space padding around `0xff`,
and the outcome characterization at signed width 8 on `"128"`. -/
theorem c8_int_conversion_witness :
    valFromEnvVar (.scalar (.int false 8)) "\t 0xff \t" =
      valFromEnvVar (.scalar (.int false 8)) "0xff" ∧
    (∃ z, parseIntCore "128" = some z ∧
      ¬(intLo true 8 ≤ z ∧ z ≤ intHi true 8)) := by
  constructor
  · have h := c8_int_conversion.1 ['\t', ' '] [' ', '\t'] "0xff" false 8
      (by decide) (by decide)
    simpa using h
  · exact (c8_int_conversion.2.1 true 8 "128").2.1 (by decide)

/-! ## Lemmas about lookup, erasure and the walker's frame -/

theorem lookupKV_eq_none_iff {β : Type} (k : String) (l : List (String × β)) :
    lookupKV k l = none ↔ ∀ b, (k, b) ∉ l := by
  induction l with
  | nil => simp [lookupKV]
  | cons p ps ih =>
    simp only [lookupKV]
    by_cases hp : p.1 = k
    · rw [if_pos hp]
      constructor
      · intro h; exact absurd h (by simp)
      · intro h
        exact absurd (show (k, p.2) ∈ p :: ps by
          rw [show (k, p.2) = p from Prod.ext hp.symm rfl]
          exact List.mem_cons_self p ps) (h p.2)
    · rw [if_neg hp, ih]
      constructor
      · intro h b hb
        rcases List.mem_cons.mp hb with h1 | h1
        · exact hp (congrArg Prod.fst h1.symm)
        · exact h b h1
      · intro h b hb
        exact h b (List.mem_cons_of_mem p hb)

theorem mem_of_mem_eraseKV {β : Type} (k : String) :
    ∀ (l : List (String × β)) (x : String × β), x ∈ eraseKV k l → x ∈ l := by
  intro l
  induction l with
  | nil => intro x hx; simp [eraseKV] at hx
  | cons p ps ih =>
    intro x
    simp only [eraseKV]
    by_cases hp : p.1 = k
    · rw [if_pos hp]
      intro hx
      exact List.mem_cons_of_mem p (ih x hx)
    · rw [if_neg hp]
      intro hx
      rcases List.mem_cons.mp hx with h | h
      · exact h ▸ List.mem_cons_self p ps
      · exact List.mem_cons_of_mem p (ih x h)

theorem lookupKV_none_of_subset {β : Type} (k : String) (l1 l2 : List (String × β))
    (hsub : ∀ x, x ∈ l2 → x ∈ l1) (h : lookupKV k l1 = none) :
    lookupKV k l2 = none :=
  (lookupKV_eq_none_iff k l2).mpr fun b hb => (lookupKV_eq_none_iff k l1).mp h b (hsub _ hb)

theorem overlaySubsecFields_part_subset (key : String) :
    ∀ (fs : List Field) (vs : Record) (part : List (String × String))
      (x : String × String),
      x ∈ (overlaySubsecFields key fs vs part).2.2 → x ∈ part := by
  intro fs
  induction fs with
  | nil => intro vs part x hx; exact hx
  | cons f fs ih =>
    intro vs part x
    cases vs with
    | nil => intro hx; exact hx
    | cons v vt =>
      intro hx
      simp only [overlaySubsecFields] at hx
      split at hx
      · exact ih vt part x hx
      · split at hx
        · exact ih vt part x hx
        · split at hx
          · exact mem_of_mem_eraseKV _ part x hx
          · split at hx
            · exact mem_of_mem_eraseKV _ part x hx
            · exact mem_of_mem_eraseKV _ part x (ih vt _ x hx)

theorem overlayFields_keeps_unmatched (secPre : String) (env : EnvMap) :
    ∀ (fs : List Field) (vs : Record) (i : Nat) (f : Field) (v : Val),
      fs[i]? = some f → vs[i]? = some v →
      (f.exported = false ∨
        lookupKV (secPre ++ "_" ++ fieldToEnvVar f.name f.tag) env = none) →
      ((overlayFields secPre env fs vs).2)[i]? = some v := by
  intro fs
  induction fs with
  | nil => intro vs i f v hf; simp at hf
  | cons f0 fs ih =>
    intro vs i f v hf hv hcond
    cases vs with
    | nil => simp at hv
    | cons v0 vt =>
      cases i with
      | zero =>
        rw [List.getElem?_cons_zero] at hf hv
        cases hf
        cases hv
        rcases hcond with hexp | hnone
        · simp [overlayFields, hexp]
        · cases hexp : f0.exported with
          | false => simp [overlayFields, hexp]
          | true => simp [overlayFields, hexp, hnone]
      | succ n =>
        rw [List.getElem?_cons_succ] at hf hv
        cases hexp : f0.exported with
        | false =>
          simp only [overlayFields, hexp, if_true]
          rw [List.getElem?_cons_succ]
          exact ih vt n f v hf hv hcond
        | true =>
          cases hl : lookupKV (secPre ++ "_" ++ fieldToEnvVar f0.name f0.tag) env with
          | none =>
            simp only [overlayFields, hexp, Bool.true_eq_false, if_false, hl]
            rw [List.getElem?_cons_succ]
            exact ih vt n f v hf hv hcond
          | some s =>
            cases hc : valFromEnvVar f0.ty s with
            | error ce =>
              simp only [overlayFields, hexp, Bool.true_eq_false, if_false, hl, hc]
              rw [List.getElem?_cons_succ]
              exact hv
            | ok nv =>
              simp only [overlayFields, hexp, Bool.true_eq_false, if_false, hl, hc]
              rw [List.getElem?_cons_succ]
              exact ih vt n f v hf hv hcond

theorem overlaySubsecFields_keeps_unmatched (key : String) :
    ∀ (fs : List Field) (vs : Record) (part : List (String × String))
      (i : Nat) (f : Field) (v : Val),
      fs[i]? = some f → vs[i]? = some v →
      (f.exported = false ∨ lookupKV (key ++ fieldToEnvVar f.name f.tag) part = none) →
      ((overlaySubsecFields key fs vs part).2.1)[i]? = some v := by
  intro fs
  induction fs with
  | nil => intro vs part i f v hf; simp at hf
  | cons f0 fs ih =>
    intro vs part i f v hf hv hcond
    cases vs with
    | nil => simp at hv
    | cons v0 vt =>
      cases i with
      | zero =>
        rw [List.getElem?_cons_zero] at hf hv
        cases hf
        cases hv
        rcases hcond with hexp | hnone
        · simp [overlaySubsecFields, hexp]
        · cases hexp : f0.exported with
          | false => simp [overlaySubsecFields, hexp]
          | true => simp [overlaySubsecFields, hexp, hnone]
      | succ n =>
        rw [List.getElem?_cons_succ] at hf hv
        have hcond2 : ∀ part2 : List (String × String),
            (∀ x, x ∈ part2 → x ∈ part) →
            (f.exported = false ∨
              lookupKV (key ++ fieldToEnvVar f.name f.tag) part2 = none) := by
          intro part2 hsub
          rcases hcond with hexp | hnone
          · exact Or.inl hexp
          · exact Or.inr (lookupKV_none_of_subset _ part part2 hsub hnone)
        cases hexp : f0.exported with
        | false =>
          simp only [overlaySubsecFields, hexp, if_true]
          rw [List.getElem?_cons_succ]
          exact ih vt part n f v hf hv hcond
        | true =>
          cases hl : lookupKV (key ++ fieldToEnvVar f0.name f0.tag) part with
          | none =>
            simp only [overlaySubsecFields, hexp, Bool.true_eq_false, if_false, hl]
            rw [List.getElem?_cons_succ]
            exact ih vt part n f v hf hv hcond
          | some s =>
            cases hc : valFromEnvVar f0.ty s with
            | error ce =>
              simp only [overlaySubsecFields, hexp, Bool.true_eq_false, if_false, hl, hc]
              rw [List.getElem?_cons_succ]
              exact hv
            | ok nv =>
              cases hsl : f0.ty.isSlice with
              | true =>
                simp only [overlaySubsecFields, hexp, Bool.true_eq_false, if_false,
                  hl, hc, hsl, if_true]
                rw [List.getElem?_cons_succ]
                exact hv
              | false =>
                simp only [overlaySubsecFields, hexp, Bool.true_eq_false, if_false,
                  hl, hc, hsl, Bool.false_eq_true]
                rw [List.getElem?_cons_succ]
                refine ih vt _ n f v hf hv ?_
                exact hcond2 _ fun x hx => mem_of_mem_eraseKV _ part x hx

theorem overlayOneSec_unexported (cfgView : Config) (pre : String) (env : EnvMap)
    (s : Sec) (h : s.exported = false) : overlayOneSec cfgView pre env s = (none, s) := by
  simp [overlayOneSec, h]

theorem setGcfgAux_keeps_done (pre : String) (env : EnvMap) :
    ∀ (todo done : Config) (j : Nat), j < done.length →
      ((setGcfgAux pre env done todo).2)[j]? = done[j]? := by
  intro todo
  induction todo with
  | nil => intro done j hj; rfl
  | cons s rest ih =>
    intro done j hj
    simp only [setGcfgAux]
    split
    · rename_i e0 s1 hs
      show (done ++ s1 :: rest)[j]? = done[j]?
      rw [List.getElem?_append, if_pos hj]
    · rename_i s1 hs
      rw [ih (done ++ [s1]) j (by simp; omega)]
      rw [List.getElem?_append, if_pos hj]

theorem setGcfgAux_keeps_unexported (pre : String) (env : EnvMap) :
    ∀ (todo done : Config) (i : Nat) (s : Sec),
      todo[i]? = some s → s.exported = false →
      ((setGcfgAux pre env done todo).2)[done.length + i]? = some s := by
  intro todo
  induction todo with
  | nil => intro done i s hi; simp at hi
  | cons s0 rest ih =>
    intro done i s hi hexp
    cases i with
    | zero =>
      rw [List.getElem?_cons_zero] at hi
      cases hi
      simp only [setGcfgAux, overlayOneSec_unexported (done ++ s0 :: rest) pre env s0 hexp]
      rw [Nat.add_zero]
      rw [setGcfgAux_keeps_done pre env rest (done ++ [s0]) done.length (by simp)]
      exact List.getElem?_concat_length done s0
    | succ n =>
      rw [List.getElem?_cons_succ] at hi
      simp only [setGcfgAux]
      split
      · rename_i e0 s1 hs
        show (done ++ s1 :: rest)[done.length + (n + 1)]? = some s
        rw [List.getElem?_append_right (by omega)]
        have : done.length + (n + 1) - done.length = n + 1 := by omega
        rw [this, List.getElem?_cons_succ]
        exact hi
      · rename_i s1 hs
        have h2 := ih (done ++ [s1]) n s hi hexp
        have h3 : (done ++ [s1]).length + n = done.length + (n + 1) := by
          simp
          omega
        rw [h3] at h2
        exact h2

theorem overlayFields_all_unexported (secPre : String) (env : EnvMap) :
    ∀ (fs : List Field) (vs : Record),
      (∀ f ∈ fs, f.exported = false) →
      overlayFields secPre env fs vs = (none, vs) := by
  intro fs
  induction fs with
  | nil => intro vs h; rfl
  | cons f fs ih =>
    intro vs h
    cases vs with
    | nil => rfl
    | cons v vt =>
      have hf := h f (List.mem_cons_self f fs)
      simp only [overlayFields, hf, if_true]
      rw [ih vt fun g hg => h g (List.mem_cons_of_mem f hg)]

theorem setGcfgAux_all_unexported (pre : String) (env : EnvMap) :
    ∀ (todo done : Config),
      (∀ s ∈ todo, s.exported = false) →
      setGcfgAux pre env done todo = (none, done ++ todo) := by
  intro todo
  induction todo with
  | nil => intro done h; simp [setGcfgAux]
  | cons s rest ih =>
    intro done h
    have hs := h s (List.mem_cons_self s rest)
    simp only [setGcfgAux, overlayOneSec_unexported (done ++ s :: rest) pre env s hs]
    rw [ih (done ++ [s]) fun t ht => h t (List.mem_cons_of_mem s ht)]
    simp

/-- Claim C9.  Frame effects of the overlay: a field with no matching
environment key keeps exactly its post-base-parse value (the walker never
zeroes, defaults or removes an existing value), both in flat sections
(first conjunct) and in existing subsection records of dynamic sections
(second conjunct, where absence from the partitioned set is the no-match
condition); an unexported top-level section is never modified (third
conjunct); a configuration whose sections are all unexported is returned
entirely unchanged with no error, whatever the environment contains
(fourth conjunct); and a flat section whose fields are all unexported is
returned unchanged with no error even when the environment holds entries
for those fields (fifth conjunct) — unexported fields are skipped before
any lookup or conversion, so they produce no mutation and no error. -/
theorem c9_frame_unmatched_and_private (secPre key pre : String) (env : EnvMap) :
    (∀ (fs : List Field) (vs : Record) (i : Nat) (f : Field) (v : Val),
      fs[i]? = some f → vs[i]? = some v →
      (f.exported = false ∨
        lookupKV (secPre ++ "_" ++ fieldToEnvVar f.name f.tag) env = none) →
      ((overlayFields secPre env fs vs).2)[i]? = some v) ∧
    (∀ (fs : List Field) (vs : Record) (part : List (String × String))
      (i : Nat) (f : Field) (v : Val),
      fs[i]? = some f → vs[i]? = some v →
      (f.exported = false ∨ lookupKV (key ++ fieldToEnvVar f.name f.tag) part = none) →
      ((overlaySubsecFields key fs vs part).2.1)[i]? = some v) ∧
    (∀ (cfg : Config) (i : Nat) (s : Sec),
      cfg[i]? = some s → s.exported = false →
      ((setGcfgWithEnvMap cfg pre env).2)[i]? = some s) ∧
    (∀ cfg : Config, (∀ s ∈ cfg, s.exported = false) →
      setGcfgWithEnvMap cfg pre env = (none, cfg)) ∧
    (∀ (fs : List Field) (vs : Record),
      (∀ f ∈ fs, f.exported = false) →
      overlayFields secPre env fs vs = (none, vs)) := by
  refine ⟨overlayFields_keeps_unmatched secPre env,
    overlaySubsecFields_keeps_unmatched key, ?_, ?_,
    overlayFields_all_unexported secPre env⟩
  · intro cfg i s hi hexp
    have h := setGcfgAux_keeps_unexported pre env cfg [] i s hi hexp
    simpa [setGcfgWithEnvMap] using h
  · intro cfg h
    have := setGcfgAux_all_unexported pre env cfg [] h
    simpa [setGcfgWithEnvMap] using this

/-- Witness for `c9_frame_unmatched_and_private`: a two-field flat section
where only `F1` is matched keeps `F2`; an unexported section named
`private` is untouched and produces no error although `SEC1_PRIVATE`-style
entries are present. -/
theorem c9_frame_unmatched_and_private_witness :
    ((overlayFields "SEC1" [("SEC1_F1", "set"), ("SEC1_PRIVATE", "noset")]
        [⟨"F1", "", true, .scalar .str⟩, ⟨"F2", "", true, .scalar .str⟩]
        [.scalar (.str "value"), .scalar (.str "keep")]).2)[1]?
      = some (.scalar (.str "keep")) ∧
    setGcfgWithEnvMap
        [⟨"private", "", false, .structSec [⟨"F1", "", true, .scalar .str⟩]
          [.scalar (.str "value")]⟩]
        "" [("PRIVATE_F1", "noset")]
      = (none,
         [⟨"private", "", false, .structSec [⟨"F1", "", true, .scalar .str⟩]
          [.scalar (.str "value")]⟩]) := by
  constructor
  · exact (c9_frame_unmatched_and_private "SEC1" "" ""
      [("SEC1_F1", "set"), ("SEC1_PRIVATE", "noset")]).1
      [⟨"F1", "", true, .scalar .str⟩, ⟨"F2", "", true, .scalar .str⟩]
      [.scalar (.str "value"), .scalar (.str "keep")] 1
      ⟨"F2", "", true, .scalar .str⟩ (.scalar (.str "keep"))
      (by decide) (by decide) (Or.inr (by decide))
  · exact (c9_frame_unmatched_and_private "SEC1" "" ""
      [("PRIVATE_F1", "noset")]).2.2.2.1
      [⟨"private", "", false, .structSec [⟨"F1", "", true, .scalar .str⟩]
        [.scalar (.str "value")]⟩]
      (by decide)

/-- Claim C5.  Every subsection record created purely from environment
input is seeded, before the override value is written, from the
configuration object's `Default_` + section-field-name sibling when that
field is declared, and from the record type's zero value otherwise.  The
first conjunct proves the spec's example for *arbitrary* default field
values `d1`, `d2`: overlaying `SEC_k1_FIELD=cats` onto an empty dynamic
section with a `Default_Sec` record `[d1, d2]` creates `"k1"` holding the
converted `"cats"` in the overridden field and exactly `d2` in the
untouched one.  The second conjunct is the same run with no `Default_Sec`
sibling declared: the untouched field holds the zero value `""`. -/
theorem c5_new_records_seeded_from_defaults :
    (∀ d1 d2 : Val,
      setGcfgWithEnvMap
        [⟨"Sec", "", true, .mapSec
            [⟨"Field", "", true, .scalar .str⟩, ⟨"Field2", "", true, .scalar .str⟩] []⟩,
         ⟨"Default_Sec", "", true, .structSec
            [⟨"Field", "", true, .scalar .str⟩, ⟨"Field2", "", true, .scalar .str⟩]
            [d1, d2]⟩]
        "" [("SEC_k1_FIELD", "cats")]
      = (none,
         [⟨"Sec", "", true, .mapSec
            [⟨"Field", "", true, .scalar .str⟩, ⟨"Field2", "", true, .scalar .str⟩]
            [("k1", [.scalar (.str "cats"), d2])]⟩,
          ⟨"Default_Sec", "", true, .structSec
            [⟨"Field", "", true, .scalar .str⟩, ⟨"Field2", "", true, .scalar .str⟩]
            [d1, d2]⟩])) ∧
    setGcfgWithEnvMap
        [⟨"Sec", "", true, .mapSec
            [⟨"Field", "", true, .scalar .str⟩, ⟨"Field2", "", true, .scalar .str⟩] []⟩]
        "" [("SEC_k1_FIELD", "cats")]
      = (none,
         [⟨"Sec", "", true, .mapSec
            [⟨"Field", "", true, .scalar .str⟩, ⟨"Field2", "", true, .scalar .str⟩]
            [("k1", [.scalar (.str "cats"), .scalar (.str "")])]⟩]) := by
  exact ⟨fun d1 d2 => rfl, by decide⟩

/-! ## Lemmas for the two dynamic-section passes -/

theorem lookupKV_eraseKV_self {β : Type} (k : String) (l : List (String × β)) :
    lookupKV k (eraseKV k l) = none := by
  induction l with
  | nil => rfl
  | cons p ps ih =>
    simp only [eraseKV]
    by_cases hp : p.1 = k
    · rw [if_pos hp]
      exact ih
    · rw [if_neg hp]
      simp only [lookupKV]
      rw [if_neg hp]
      exact ih

theorem lookupKV_eq_none_iff_keys {β : Type} (k : String) (l : List (String × β)) :
    lookupKV k l = none ↔ k ∉ l.map Prod.fst := by
  rw [lookupKV_eq_none_iff]
  constructor
  · intro h hk
    rcases List.mem_map.mp hk with ⟨p, hp, hfst⟩
    exact h p.2 (by rw [show (k, p.2) = p from Prod.ext hfst.symm rfl]; exact hp)
  · intro h b hb
    exact h (List.mem_map.mpr ⟨(k, b), hb, rfl⟩)

theorem overlaySubsecFields_consumes (key : String) :
    ∀ (fs : List Field) (vs : Record) (part partOut : List (String × String))
      (rOut : Record),
      fs.length ≤ vs.length →
      overlaySubsecFields key fs vs part = (none, rOut, partOut) →
      ∀ f ∈ fs, f.exported = true →
        lookupKV (key ++ fieldToEnvVar f.name f.tag) partOut = none := by
  intro fs
  induction fs with
  | nil => intro vs part partOut rOut _ _ f hf; simp at hf
  | cons f0 fs ih =>
    intro vs part partOut rOut hlen heq f hf hfexp
    cases vs with
    | nil => simp at hlen
    | cons v vt =>
      have hlen2 : fs.length ≤ vt.length := by simpa using hlen
      simp only [overlaySubsecFields] at heq
      split at heq
      · rename_i hexp0
        simp only [Prod.mk.injEq] at heq
        obtain ⟨h1, h2, h3⟩ := heq
        rcases List.mem_cons.mp hf with hf0 | hfs
        · subst hf0
          rw [hfexp] at hexp0
          simp at hexp0
        · subst h3
          exact ih vt part _ _ hlen2 (by rw [← h1]) f hfs hfexp
      · rename_i hexp0
        split at heq
        · rename_i hl
          simp only [Prod.mk.injEq] at heq
          obtain ⟨h1, h2, h3⟩ := heq
          rcases List.mem_cons.mp hf with hf0 | hfs
          · subst hf0
            subst h3
            exact lookupKV_none_of_subset _ part _
              (fun x hx => overlaySubsecFields_part_subset key fs vt part x hx) hl
          · subst h3
            exact ih vt part _ _ hlen2 (by rw [← h1]) f hfs hfexp
        · rename_i s hl
          split at heq
          · simp at heq
          · split at heq
            · simp at heq
            · rename_i nv hc hsl
              simp only [Prod.mk.injEq] at heq
              obtain ⟨h1, h2, h3⟩ := heq
              rcases List.mem_cons.mp hf with hf0 | hfs
              · subst hf0
                subst h3
                refine lookupKV_none_of_subset _
                  (eraseKV (key ++ fieldToEnvVar f.name f.tag) part) _
                  (fun x hx => overlaySubsecFields_part_subset key fs vt _ x hx) ?_
                exact lookupKV_eraseKV_self _ part
              · subst h3
                exact ih vt _ _ _ hlen2 (by rw [← h1]) f hfs hfexp

theorem existingPass_part_subset (fields : List Field) :
    ∀ (entries : List (String × Record)) (part : List (String × String))
      (x : String × String),
      x ∈ (existingPass fields entries part).2.2 → x ∈ part := by
  intro entries
  induction entries with
  | nil => intro part x hx; exact hx
  | cons entry rest ih =>
    intro part x
    simp only [existingPass]
    split
    · rename_i e r1 part1 hs
      intro hx
      have : x ∈ (overlaySubsecFields (if entry.1 = "" then "" else entry.1 ++ "_")
          fields entry.2 part).2.2 := by rw [hs]; exact hx
      exact overlaySubsecFields_part_subset _ fields entry.2 part x this
    · rename_i r1 part1 hs
      intro hx
      have h1 : x ∈ part1 := ih part1 x hx
      have : x ∈ (overlaySubsecFields (if entry.1 = "" then "" else entry.1 ++ "_")
          fields entry.2 part).2.2 := by rw [hs]; exact h1
      exact overlaySubsecFields_part_subset _ fields entry.2 part x this

theorem existingPass_names (fields : List Field) :
    ∀ (entries : List (String × Record)) (part : List (String × String)),
      ((existingPass fields entries part).2.1).map Prod.fst = entries.map Prod.fst := by
  intro entries
  induction entries with
  | nil => intro part; rfl
  | cons entry rest ih =>
    intro part
    simp only [existingPass]
    split
    · simp
    · rename_i r1 part1 hs
      simp [ih]

theorem existingPass_consumes (fields : List Field) :
    ∀ (entries entriesOut : List (String × Record))
      (part partOut : List (String × String)),
      (∀ e ∈ entries, fields.length ≤ e.2.length) →
      existingPass fields entries part = (none, entriesOut, partOut) →
      ∀ e ∈ entries, ∀ f ∈ fields, f.exported = true →
        lookupKV ((if e.1 = "" then "" else e.1 ++ "_") ++ fieldToEnvVar f.name f.tag)
          partOut = none := by
  intro entries
  induction entries with
  | nil => intro entriesOut part partOut _ _ e he; simp at he
  | cons entry rest ih =>
    intro entriesOut part partOut hlen heq e he f hf hfexp
    simp only [existingPass] at heq
    split at heq
    · simp at heq
    · rename_i r1 part1 hs
      simp only [Prod.mk.injEq] at heq
      obtain ⟨h1, h2, h3⟩ := heq
      rcases List.mem_cons.mp he with he0 | hrest
      · subst he0
        subst h3
        have habs : lookupKV ((if e.1 = "" then "" else e.1 ++ "_") ++
            fieldToEnvVar f.name f.tag) part1 = none :=
          overlaySubsecFields_consumes _ fields e.2 part part1 r1
            (hlen e (List.mem_cons_self e rest)) hs f hf hfexp
        exact lookupKV_none_of_subset _ part1 _
          (fun x hx => existingPass_part_subset fields rest part1 x hx) habs
      · subst h3
        exact ih _ part1 _
          (fun e2 he2 => hlen e2 (List.mem_cons_of_mem entry he2))
          (by rw [← h1]) e hrest f hf hfexp

theorem setRecField_names (k : String) (j : Nat) (v : Val) :
    ∀ entries : List (String × Record),
      (setRecField entries k j v).map Prod.fst = entries.map Prod.fst := by
  intro entries
  induction entries with
  | nil => rfl
  | cons p ps ih =>
    show ((if p.1 = k then (p.1, p.2.set j v) else p) :: setRecField ps k j v).map Prod.fst
      = p.1 :: ps.map Prod.fst
    by_cases hp : p.1 = k
    · rw [if_pos hp]
      simp only [List.map_cons]
      rw [ih]
    · rw [if_neg hp]
      simp only [List.map_cons]
      rw [ih]

theorem newPassField_names_superset (suf : String) (t : Ty) (j : Nat) (defaults : Record) :
    ∀ (part : List (String × String)) (entries : List (String × Record)) (x : String),
      x ∈ entries.map Prod.fst →
      x ∈ ((newPassField suf t j defaults part entries).2.1).map Prod.fst := by
  intro part
  induction part with
  | nil => intro entries x hx; exact hx
  | cons ev rest ih =>
    intro entries x hx
    simp only [newPassField]
    split
    · exact ih entries x hx
    · have hx1 : x ∈ ((if (lookupKV (replaceFirst ev.1 suf) entries).isSome then entries
          else entries ++ [(replaceFirst ev.1 suf, defaults)]).map Prod.fst) := by
        split
        · exact hx
        · rw [List.map_append]
          exact List.mem_append_left _ hx
      split
      · exact hx1
      · split
        · exact hx1
        · refine ih _ x ?_
          rw [setRecField_names]
          exact hx1

theorem newPassField_names_nodup (suf : String) (t : Ty) (j : Nat) (defaults : Record) :
    ∀ (part : List (String × String)) (entries : List (String × Record)),
      ((entries.map Prod.fst).Nodup) →
      (((newPassField suf t j defaults part entries).2.1).map Prod.fst).Nodup := by
  intro part
  induction part with
  | nil => intro entries h; exact h
  | cons ev rest ih =>
    intro entries h
    simp only [newPassField]
    split
    · exact ih entries h
    · have h1 : (((if (lookupKV (replaceFirst ev.1 suf) entries).isSome then entries
          else entries ++ [(replaceFirst ev.1 suf, defaults)]).map Prod.fst)).Nodup := by
        split
        · exact h
        · rename_i hlk
          rw [List.map_append]
          simp only [List.map_cons, List.map_nil]
          rw [List.nodup_append]
          refine ⟨h, List.nodup_singleton _, ?_⟩
          intro a ha hb
          rw [List.mem_singleton] at hb
          subst hb
          have hnone : lookupKV (replaceFirst ev.1 suf) entries = none := by
            cases hlkv : lookupKV (replaceFirst ev.1 suf) entries with
            | none => rfl
            | some b => rw [hlkv] at hlk; simp at hlk
          exact (lookupKV_eq_none_iff_keys _ entries).mp hnone ha
      split
      · exact h1
      · split
        · exact h1
        · refine ih _ ?_
          rw [setRecField_names]
          exact h1

theorem newPass_names (defaults : Record) :
    ∀ (jfs : List (Nat × Field)) (entries : List (String × Record))
      (part : List (String × String)),
      (∀ x, x ∈ entries.map Prod.fst →
        x ∈ ((newPass defaults jfs entries part).2.1).map Prod.fst) ∧
      ((entries.map Prod.fst).Nodup →
        (((newPass defaults jfs entries part).2.1).map Prod.fst).Nodup) := by
  intro jfs
  induction jfs with
  | nil => intro entries part; exact ⟨fun x hx => hx, fun h => h⟩
  | cons jf rest ih =>
    intro entries part
    constructor
    · intro x hx
      simp only [newPass]
      split
      · exact (ih entries part).1 x hx
      · split
        · rename_i e1 p1 hs
          have := newPassField_names_superset ("_" ++ fieldToEnvVar jf.2.name jf.2.tag)
            jf.2.ty jf.1 defaults part entries x hx
          rw [hs] at this
          exact this
        · rename_i e1 p1 hs
          refine (ih e1 p1).1 x ?_
          have := newPassField_names_superset ("_" ++ fieldToEnvVar jf.2.name jf.2.tag)
            jf.2.ty jf.1 defaults part entries x hx
          rw [hs] at this
          exact this
    · intro h
      simp only [newPass]
      split
      · exact (ih entries part).2 h
      · split
        · rename_i e1 p1 hs
          have := newPassField_names_nodup ("_" ++ fieldToEnvVar jf.2.name jf.2.tag)
            jf.2.ty jf.1 defaults part entries h
          rw [hs] at this
          exact this
        · rename_i e1 p1 hs
          refine (ih e1 p1).2 ?_
          have := newPassField_names_nodup ("_" ++ fieldToEnvVar jf.2.name jf.2.tag)
            jf.2.ty jf.1 defaults part entries h
          rw [hs] at this
          exact this

/-- Claim C6.  The existing-entry pass of a dynamic section runs before any
new-subsection logic, applies every matching partitioned entry to the
already-present record, and removes it from the partitioned set, so an
environment key naming an existing subsection updates that record in place
and never makes the new-subsection pass create a duplicate.  First
conjunct: the spec's example — base-parsed subsection `"k1"` with
`Field="x"` and environment `SEC_k1_FIELD=y` yields `Field="y"` on the
same single record.  Second conjunct: on a completed (non-aborting)
existing-entry pass, no relative key of an existing record's exported
field survives into the partitioned set handed to the new-subsection pass.
Third conjunct: the existing-entry pass preserves the set of subsection
names exactly.  Fourth and fifth conjuncts: the new-subsection pass only
ever extends the name set and keeps it duplicate-free. -/
theorem c6_existing_records_updated_in_place (fields : List Field)
    (defaults : Record) :
    (setGcfgWithEnvMap
        [⟨"Sec", "", true, .mapSec [⟨"Field", "", true, .scalar .str⟩]
          [("k1", [.scalar (.str "x")])]⟩]
        "" [("SEC_k1_FIELD", "y")]
      = (none, [⟨"Sec", "", true, .mapSec [⟨"Field", "", true, .scalar .str⟩]
          [("k1", [.scalar (.str "y")])]⟩])) ∧
    (∀ (entries entriesOut : List (String × Record))
      (part partOut : List (String × String)),
      (∀ e ∈ entries, fields.length ≤ e.2.length) →
      existingPass fields entries part = (none, entriesOut, partOut) →
      ∀ e ∈ entries, ∀ f ∈ fields, f.exported = true →
        lookupKV ((if e.1 = "" then "" else e.1 ++ "_") ++ fieldToEnvVar f.name f.tag)
          partOut = none) ∧
    (∀ (entries : List (String × Record)) (part : List (String × String)),
      ((existingPass fields entries part).2.1).map Prod.fst = entries.map Prod.fst) ∧
    (∀ (jfs : List (Nat × Field)) (entries : List (String × Record))
      (part : List (String × String)) (x : String),
      x ∈ entries.map Prod.fst →
      x ∈ ((newPass defaults jfs entries part).2.1).map Prod.fst) ∧
    (∀ (jfs : List (Nat × Field)) (entries : List (String × Record))
      (part : List (String × String)),
      (entries.map Prod.fst).Nodup →
      (((newPass defaults jfs entries part).2.1).map Prod.fst).Nodup) := by
  refine ⟨by decide, existingPass_consumes fields, existingPass_names fields,
    ?_, ?_⟩
  · intro jfs entries part x hx
    exact (newPass_names defaults jfs entries part).1 x hx
  · intro jfs entries part h
    exact (newPass_names defaults jfs entries part).2 h

/-- Witness for `c6_existing_records_updated_in_place`: one existing record
`"k1"` with a single exported string field consumes `k1_FIELD` from the
partition, and the new-subsection pass keeps the singleton name set
`["k1"]` duplicate-free. -/
theorem c6_existing_records_updated_in_place_witness :
    lookupKV "k1_FIELD"
        ((existingPass [⟨"Field", "", true, .scalar .str⟩]
          [("k1", [.scalar (.str "x")])] [("k1_FIELD", "y")]).2.2) = none ∧
    (((newPass [] [(0, ⟨"Field", "", true, .scalar .str⟩)]
        [("k1", [.scalar (.str "x")])] []).2.1).map Prod.fst).Nodup := by
  constructor
  · have h := (c6_existing_records_updated_in_place
        [⟨"Field", "", true, .scalar .str⟩] []).2.1
        [("k1", [.scalar (.str "x")])] [("k1", [.scalar (.str "y")])]
        [("k1_FIELD", "y")] []
        (by decide) (by decide)
        ("k1", [.scalar (.str "x")]) (by decide)
        ⟨"Field", "", true, .scalar .str⟩ (by decide) (by decide)
    simpa using h
  · exact (c6_existing_records_updated_in_place
      [⟨"Field", "", true, .scalar .str⟩] []).2.2.2.2
      [(0, ⟨"Field", "", true, .scalar .str⟩)]
      [("k1", [.scalar (.str "x")])] [] (by decide)

/-! ## Lemmas for the first-failure abort behaviour -/

theorem overlayFields_err_split (secPre : String) (env : EnvMap) :
    ∀ (fs : List Field) (vs : Record) (e : WalkErr) (vsOut : Record),
      overlayFields secPre env fs vs = (some e, vsOut) →
      ∃ (k : Nat) (w : Record) (f : Field) (v : Val) (s : String) (ce : ConvErr),
        fs[k]? = some f ∧ vs[k]? = some v ∧ f.exported = true ∧
        lookupKV (secPre ++ "_" ++ fieldToEnvVar f.name f.tag) env = some s ∧
        valFromEnvVar f.ty s = .error ce ∧ e = .conv ce ∧
        w.length = k ∧ vsOut = w ++ List.drop k vs ∧
        overlayFields secPre env (List.take k fs) (List.take k vs) = (none, w) := by
  intro fs
  induction fs with
  | nil =>
    intro vs e vsOut heq
    simp [overlayFields] at heq
  | cons f0 fs ih =>
    intro vs e vsOut heq
    cases vs with
    | nil => simp [overlayFields] at heq
    | cons v0 vt =>
      simp only [overlayFields] at heq
      split at heq
      · rename_i hexp
        simp only [Prod.mk.injEq] at heq
        obtain ⟨h1, h2⟩ := heq
        obtain ⟨k, w, f, v, s, ce, hfk, hvk, hfe, hl, hc, he, hwl, hout, hpre⟩ :=
          ih vt e (overlayFields secPre env fs vt).2 (by rw [← h1])
        refine ⟨k + 1, v0 :: w, f, v, s, ce, ?_, ?_, hfe, hl, hc, he, ?_, ?_, ?_⟩
        · rw [List.getElem?_cons_succ]; exact hfk
        · rw [List.getElem?_cons_succ]; exact hvk
        · simp [hwl]
        · rw [← h2, hout, List.drop_succ_cons]
          rfl
        · rw [List.take_succ_cons, List.take_succ_cons]
          simp only [overlayFields, hexp, if_true]
          rw [hpre]
      · rename_i hexp
        have hfe0 : f0.exported = true := by
          revert hexp
          cases f0.exported <;> simp
        split at heq
        · rename_i hl
          simp only [Prod.mk.injEq] at heq
          obtain ⟨h1, h2⟩ := heq
          obtain ⟨k, w, f, v, s, ce, hfk, hvk, hfe, hls, hc, he, hwl, hout, hpre⟩ :=
            ih vt e (overlayFields secPre env fs vt).2 (by rw [← h1])
          refine ⟨k + 1, v0 :: w, f, v, s, ce, ?_, ?_, hfe, hls, hc, he, ?_, ?_, ?_⟩
          · rw [List.getElem?_cons_succ]; exact hfk
          · rw [List.getElem?_cons_succ]; exact hvk
          · simp [hwl]
          · rw [← h2, hout, List.drop_succ_cons]
            rfl
          · rw [List.take_succ_cons, List.take_succ_cons]
            simp only [overlayFields, hexp, Bool.true_eq_false, if_false, hl]
            rw [hpre]
        · rename_i s0 hl
          split at heq
          · rename_i ce0 hc
            simp only [Prod.mk.injEq] at heq
            obtain ⟨h1, h2⟩ := heq
            have he : e = .conv ce0 := by
              injection h1 with h
              exact h.symm
            refine ⟨0, [], f0, v0, s0, ce0, by simp, by simp, hfe0, hl, hc, he,
              rfl, ?_, rfl⟩
            rw [← h2]
            rfl
          · rename_i nv hc
            simp only [Prod.mk.injEq] at heq
            obtain ⟨h1, h2⟩ := heq
            obtain ⟨k, w, f, v, s, ce, hfk, hvk, hfe, hls, hcc, he, hwl, hout, hpre⟩ :=
              ih vt e (overlayFields secPre env fs vt).2 (by rw [← h1])
            refine ⟨k + 1, (if f0.ty.isSlice then appendVal v0 nv else nv) :: w,
              f, v, s, ce, ?_, ?_, hfe, hls, hcc, he, ?_, ?_, ?_⟩
            · rw [List.getElem?_cons_succ]; exact hfk
            · rw [List.getElem?_cons_succ]; exact hvk
            · simp [hwl]
            · rw [← h2, hout, List.drop_succ_cons]
              rfl
            · rw [List.take_succ_cons, List.take_succ_cons]
              simp only [overlayFields, hexp, Bool.true_eq_false, if_false, hl, hc]
              rw [hpre]

theorem setGcfgAux_err_split (pre : String) (env : EnvMap) :
    ∀ (todo done : Config) (e : WalkErr) (out : Config),
      setGcfgAux pre env done todo = (some e, out) →
      ∃ (k : Nat) (processed : Config) (s s1 : Sec),
        processed.length = k ∧ todo[k]? = some s ∧
        out = done ++ processed ++ s1 :: List.drop (k + 1) todo ∧
        overlayOneSec (done ++ processed ++ List.drop k todo) pre env s = (some e, s1) ∧
        (∀ j, j < k → ∃ (sj sj1 : Sec), todo[j]? = some sj ∧ processed[j]? = some sj1 ∧
          overlayOneSec (done ++ List.take j processed ++ List.drop j todo) pre env sj
            = (none, sj1)) := by
  intro todo
  induction todo with
  | nil => intro done e out heq; simp [setGcfgAux] at heq
  | cons s0 rest ih =>
    intro done e out heq
    simp only [setGcfgAux] at heq
    split at heq
    · rename_i e0 s1 hs
      simp only [Prod.mk.injEq] at heq
      obtain ⟨h1, h2⟩ := heq
      have he : e0 = e := by injection h1
      subst he
      refine ⟨0, [], s0, s1, rfl, by simp, ?_, ?_, ?_⟩
      · rw [← h2]
        simp
      · simpa using hs
      · intro j hj
        omega
    · rename_i s1 hs
      obtain ⟨k, processed, s, s2, hplen, htk, hout, hfail, hsteps⟩ :=
        ih (done ++ [s1]) e out heq
      refine ⟨k + 1, s1 :: processed, s, s2, by simp [hplen], ?_, ?_, ?_, ?_⟩
      · rw [List.getElem?_cons_succ]
        exact htk
      · rw [hout]
        simp
      · have hview : done ++ (s1 :: processed) ++ List.drop (k + 1) (s0 :: rest)
            = (done ++ [s1]) ++ processed ++ List.drop k rest := by
          simp
        rw [hview]
        exact hfail
      · intro j hj
        cases j with
        | zero =>
          refine ⟨s0, s1, by simp, by simp, ?_⟩
          simpa using hs
        | succ n =>
          obtain ⟨sj, sj1, hj1, hj2, hj3⟩ := hsteps n (by omega)
          refine ⟨sj, sj1, ?_, ?_, ?_⟩
          · rw [List.getElem?_cons_succ]
            exact hj1
          · rw [List.getElem?_cons_succ]
            exact hj2
          · have hview : done ++ List.take (n + 1) (s1 :: processed) ++
                List.drop (n + 1) (s0 :: rest)
                = (done ++ [s1]) ++ List.take n processed ++ List.drop n rest := by
              simp
            rw [hview]
            exact hj3

/-- Claim C4.  The first conversion failure aborts the entire overlay pass,
the failing conversion's error is returned as-is, every already-processed
field keeps its overlaid value (no rollback), and everything after the
failing point in traversal order is left exactly as the base parse
produced it.  First conjunct, section granularity: a failing walk
decomposes into a fully-and-successfully overlaid prefix `processed` (each
of its sections the exact output of a successful per-section overlay from
the intermediate state it was processed in), the failing section whose
per-section overlay returned precisely the error `e` that the walk
returns, and an untouched tail `List.drop (k+1) cfg` of the input.  Second
conjunct, field granularity inside a flat section: a failing field loop
decomposes into a successfully overlaid prefix `w`, the failing exported
field whose looked-up raw text fails to convert with exactly the `ConvErr`
that is returned (wrapped only in the `WalkErr.conv` constructor, not
reinterpreted), and the untouched tail `List.drop k vs` of the base-parse
values — the failing field itself keeps its base value. -/
theorem c4_first_failure_aborts (pre secPre : String) (env : EnvMap) :
    (∀ (cfg : Config) (e : WalkErr) (out : Config),
      setGcfgWithEnvMap cfg pre env = (some e, out) →
      ∃ (k : Nat) (processed : Config) (s s1 : Sec),
        processed.length = k ∧ cfg[k]? = some s ∧
        out = processed ++ s1 :: List.drop (k + 1) cfg ∧
        overlayOneSec (processed ++ List.drop k cfg) pre env s = (some e, s1) ∧
        (∀ j, j < k → ∃ (sj sj1 : Sec), cfg[j]? = some sj ∧ processed[j]? = some sj1 ∧
          overlayOneSec (List.take j processed ++ List.drop j cfg) pre env sj
            = (none, sj1))) ∧
    (∀ (fs : List Field) (vs : Record) (e : WalkErr) (vsOut : Record),
      overlayFields secPre env fs vs = (some e, vsOut) →
      ∃ (k : Nat) (w : Record) (f : Field) (v : Val) (s : String) (ce : ConvErr),
        fs[k]? = some f ∧ vs[k]? = some v ∧ f.exported = true ∧
        lookupKV (secPre ++ "_" ++ fieldToEnvVar f.name f.tag) env = some s ∧
        valFromEnvVar f.ty s = .error ce ∧ e = .conv ce ∧
        w.length = k ∧ vsOut = w ++ List.drop k vs ∧
        overlayFields secPre env (List.take k fs) (List.take k vs) = (none, w)) := by
  constructor
  · intro cfg e out heq
    obtain ⟨k, processed, s, s1, hplen, hk, hout, hfail, hsteps⟩ :=
      setGcfgAux_err_split pre env cfg [] e out heq
    refine ⟨k, processed, s, s1, hplen, hk, by simpa using hout, by simpa using hfail, ?_⟩
    intro j hj
    obtain ⟨sj, sj1, h1, h2, h3⟩ := hsteps j hj
    exact ⟨sj, sj1, h1, h2, by simpa using h3⟩
  · exact overlayFields_err_split secPre env

/-- Witness for `c4_first_failure_aborts`: a two-section config where
section `A` overlays successfully and section `B`'s conversion fails on an
unsupported field type; the failure leaves `A` overlaid and `B` untouched,
and the unsupported-type error is returned as-is. -/
theorem c4_first_failure_aborts_witness :
    (∃ (k : Nat) (processed : Config) (s s1 : Sec),
      processed.length = k ∧
      ([⟨"A", "", true, .structSec [⟨"F", "", true, .scalar .str⟩]
          [.scalar (.str "")]⟩,
        ⟨"B", "", true, .structSec [⟨"G", "", true, .scalar .unsupported⟩]
          [.scalar (.str "")]⟩] : Config)[k]? = some s ∧
      ([⟨"A", "", true, .structSec [⟨"F", "", true, .scalar .str⟩]
          [.scalar (.str "set")]⟩,
        ⟨"B", "", true, .structSec [⟨"G", "", true, .scalar .unsupported⟩]
          [.scalar (.str "")]⟩] : Config)
        = processed ++ s1 :: List.drop (k + 1)
          ([⟨"A", "", true, .structSec [⟨"F", "", true, .scalar .str⟩]
              [.scalar (.str "")]⟩,
            ⟨"B", "", true, .structSec [⟨"G", "", true, .scalar .unsupported⟩]
              [.scalar (.str "")]⟩] : Config) ∧
      overlayOneSec (processed ++ List.drop k
          ([⟨"A", "", true, .structSec [⟨"F", "", true, .scalar .str⟩]
              [.scalar (.str "")]⟩,
            ⟨"B", "", true, .structSec [⟨"G", "", true, .scalar .unsupported⟩]
              [.scalar (.str "")]⟩] : Config)) "" [("A_F", "set"), ("B_G", "x")] s
        = (some (.conv (.unsupportedType .unsupported)), s1) ∧
      (∀ j, j < k → ∃ (sj sj1 : Sec),
        ([⟨"A", "", true, .structSec [⟨"F", "", true, .scalar .str⟩]
            [.scalar (.str "")]⟩,
          ⟨"B", "", true, .structSec [⟨"G", "", true, .scalar .unsupported⟩]
            [.scalar (.str "")]⟩] : Config)[j]? = some sj ∧
        processed[j]? = some sj1 ∧
        overlayOneSec (List.take j processed ++ List.drop j
            ([⟨"A", "", true, .structSec [⟨"F", "", true, .scalar .str⟩]
                [.scalar (.str "")]⟩,
              ⟨"B", "", true, .structSec [⟨"G", "", true, .scalar .unsupported⟩]
                [.scalar (.str "")]⟩] : Config)) "" [("A_F", "set"), ("B_G", "x")] sj
          = (none, sj1))) ∧
    (∃ (k : Nat) (w : Record) (f : Field) (v : Val) (s : String) (ce : ConvErr),
      ([⟨"F1", "", true, .scalar (.int true 8)⟩,
        ⟨"F2", "", true, .scalar (.int true 8)⟩] : List Field)[k]? = some f ∧
      ([.scalar (.int 1), .scalar (.int 2)] : Record)[k]? = some v ∧
      f.exported = true ∧
      lookupKV ("S" ++ "_" ++ fieldToEnvVar f.name f.tag)
        [("S_F1", "3"), ("S_F2", "nope")] = some s ∧
      valFromEnvVar f.ty s = .error ce ∧ (WalkErr.conv .parseFailure) = .conv ce ∧
      w.length = k ∧
      ([.scalar (.int 3), .scalar (.int 2)] : Record)
        = w ++ List.drop k ([.scalar (.int 1), .scalar (.int 2)] : Record) ∧
      overlayFields "S" [("S_F1", "3"), ("S_F2", "nope")]
        (List.take k [⟨"F1", "", true, .scalar (.int true 8)⟩,
          ⟨"F2", "", true, .scalar (.int true 8)⟩])
        (List.take k [.scalar (.int 1), .scalar (.int 2)]) = (none, w)) := by
  constructor
  · exact (c4_first_failure_aborts "" "S" [("A_F", "set"), ("B_G", "x")]).1
      [⟨"A", "", true, .structSec [⟨"F", "", true, .scalar .str⟩]
          [.scalar (.str "")]⟩,
       ⟨"B", "", true, .structSec [⟨"G", "", true, .scalar .unsupported⟩]
          [.scalar (.str "")]⟩]
      (.conv (.unsupportedType .unsupported))
      [⟨"A", "", true, .structSec [⟨"F", "", true, .scalar .str⟩]
          [.scalar (.str "set")]⟩,
       ⟨"B", "", true, .structSec [⟨"G", "", true, .scalar .unsupported⟩]
          [.scalar (.str "")]⟩]
      (by decide)
  · exact (c4_first_failure_aborts "" "S" [("S_F1", "3"), ("S_F2", "nope")]).2
      [⟨"F1", "", true, .scalar (.int true 8)⟩,
       ⟨"F2", "", true, .scalar (.int true 8)⟩]
      [.scalar (.int 1), .scalar (.int 2)]
      (.conv .parseFailure)
      [.scalar (.int 3), .scalar (.int 2)]
      (by decide)

end Gcfgenv
